import Mathlib

/-!
Verification of `ProcessarXML.js` (Load-Properties-from-XML).

The program loads an XML feed, extracts every `<Listing>...</Listing>` block
with the regex `/<Listing\b[^>]*>[\s\S]*?<\/Listing>/gi`, detects the
`<Listings ...>` / `</Listings>` wrapper (with a synthesized fallback), slices
the listings into batches of `BATCH_SIZE`, writes each batch to
`lotes/lote_NNN.xml`, asks the operator for confirmation and optionally posts
the batch.  The development below is a shallow embedding of that script:
strings are Lean `String`s (lists of characters), the interactive and network
effects are modelled as an explicit event trace, and the operator answers and
transmission outcomes are inputs to the model.
-/

set_option autoImplicit false

namespace PXml

/-! ### Character / string helpers mirroring the JavaScript primitives -/

/-- ASCII word character, JavaScript's `\w` (used for the `\b` boundary). -/
def isWordChar (c : Char) : Bool :=
  c.isAlphanum || c == '_'

/-- Case-insensitive "the text starts with this (lowercase) pattern",
the comparison JavaScript performs for a regex with the `i` flag. -/
def startsWithCI : List Char → List Char → Bool
  | [], _ => true
  | _ :: _, [] => false
  | p :: ps, c :: cs => p == c.toLower && startsWithCI ps cs

/-- First index at which `pat` occurs case-insensitively, if any. -/
def findSubCI (pat : List Char) : List Char → Option Nat
  | [] => if startsWithCI pat [] then some 0 else none
  | c :: cs =>
    if startsWithCI pat (c :: cs) then some 0
    else (findSubCI pat cs).map (· + 1)

/-- First index at which `pat` occurs (case-sensitively); JavaScript
`String.prototype.indexOf` modulo the `-1` encoding (`none` here). -/
def subIdx (pat : List Char) : List Char → Option Nat
  | [] => if pat = [] then some 0 else none
  | c :: cs =>
    if pat.isPrefixOf (c :: cs) then some 0
    else (subIdx pat cs).map (· + 1)

/-- First index `≥ 0` in `l` at which the whole-tail predicate `p` holds. -/
def firstAt (p : List Char → Bool) : List Char → Option Nat
  | [] => if p [] then some 0 else none
  | c :: cs => if p (c :: cs) then some 0 else (firstAt p cs).map (· + 1)

/-- JavaScript `Array.prototype.slice` / `String.prototype.slice` index
clamping: negative indices count from the end, everything is clamped to
`[0, length]`, and an empty slice results when `end ≤ start`. -/
def jsSlice {α : Type} (l : List α) (a b : Int) : List α :=
  (l.take ((if b < 0 then max ((l.length : Int) + b) 0
      else min b (l.length : Int)).toNat)).drop
    ((if a < 0 then max ((l.length : Int) + a) 0
      else min a (l.length : Int)).toNat)

/-- JavaScript `xmlText.substring(0, 500)` (start clamped at 0). -/
def jsSubstring0 (s : String) (n : Nat) : String :=
  ⟨s.data.take n⟩

/-! ### The record extractor

`const listingRegex = /<Listing\b[^>]*>[\s\S]*?<\/Listing>/gi;`
`const listingMatches = xmlText.match(listingRegex) || [];`

A match at a position consists of `<Listing` (case-insensitive), a word
boundary, the shortest run of non-`>` characters followed by `>`, and then the
lazily-nearest `</Listing>` (case-insensitive).  The `g` flag scans for the
leftmost match, emits it, and resumes right after the match. -/

/-- Length of the `<Listing\b[^>]*>` opening-tag part when it matches at the
head of `cs` (`8` pattern characters, then the first `>`). -/
def openTagLen (cs : List Char) : Option Nat :=
  if startsWithCI "<listing".toList cs then
    match cs.drop 8 with
    | [] => none
    | c :: _ =>
      if isWordChar c then none
      else
        match (cs.drop 8).findIdx? (· == '>') with
        | some j => some (8 + j + 1)
        | none => none
  else none

/-- Length of a whole `<Listing...>...</Listing>` match at the head of `cs`:
the opening tag, then lazily up to and including the nearest `</Listing>`. -/
def matchLenAt (cs : List Char) : Option Nat :=
  match openTagLen cs with
  | none => none
  | some ol =>
    match findSubCI "</listing>".toList (cs.drop ol) with
    | none => none
    | some j => some (ol + j + 10)

/-- Global scan: leftmost match, emit, continue after the match (the fuel is
an upper bound on the scanned positions; `matchLenAt` is always positive). -/
def scanAux : Nat → List Char → List (List Char)
  | 0, _ => []
  | _ + 1, [] => []
  | fuel + 1, c :: cs =>
    match matchLenAt (c :: cs) with
    | some n => (c :: cs).take n :: scanAux fuel ((c :: cs).drop n)
    | none => scanAux fuel cs

/-- `xmlText.match(listingRegex) || []` — the ordered listing blocks. -/
def extractListings (xml : String) : List String :=
  (scanAux xml.data.length xml.data).map String.mk

/-! ### Wrapper (header / footer) detection

Lines 70–92 of the script: look for `<Listings\b[^>]*>` and `</Listings>`;
if both exist, `headerSection` is everything through the end of the opening
tag and `footerSection` everything from the closing tag on; otherwise a basic
wrapper is synthesized around the text before the first / after the last
listing, located with `String.prototype.indexOf` on the matched text. -/

/-- Does `/<Listings\b[^>]*>/i` match at the head of `cs`? -/
def openListingsAt (cs : List Char) : Bool :=
  startsWithCI "<listings".toList cs &&
  (match cs.drop 9 with
   | [] => false
   | c :: _ => !isWordChar c && ((cs.drop 9).findIdx? (· == '>')).isSome)

/-- `xmlText.search(/<Listings\b[^>]*>/i)` — index of the opening wrapper. -/
def findOpenListingsIdx (cs : List Char) : Option Nat :=
  firstAt openListingsAt cs

/-- `xmlText.search(/<\/Listings>/i)` — index of the closing wrapper. -/
def findCloseListingsIdx (cs : List Char) : Option Nat :=
  findSubCI "</listings>".toList cs

/-- The fallback branch of lines 83–92: synthesize a `<Listings>` wrapper
around the text before the first match and after the last match, where the
positions come from `String.prototype.indexOf` of the matched texts
(`-1` when absent, as in JavaScript). -/
def fallbackWrapper (xml : String) (ms : List String) : String × String :=
  let cs := xml.data
  let m0 := (ms.headD "").data
  let mL := ((ms.getLast?).getD "").data
  let firstListingIdx : Int :=
    match subIdx m0 cs with
    | some k => (k : Int)
    | none => -1
  let lastListingIdx : Int :=
    (match subIdx mL cs with
     | some k => (k : Int)
     | none => -1) + mL.length
  let before := String.mk (jsSlice cs 0 firstListingIdx)
  let after := String.mk (jsSlice cs lastListingIdx (cs.length : Int))
  (before ++ "<Listings>", "</Listings>" ++ after)

/-- `(headerSection, footerSection)` of lines 73–92.  In the found case
`openEndIdx = xmlText.indexOf('>', openIdx) + 1`; since the nine characters
at `openIdx` are `<Listings` (no `>` among them), that first `>` is the one
`openListingsAt` certified, and a missing `>` is JavaScript's `-1`.  When
either wrapper tag is missing, the `fallbackWrapper` is used. -/
def wrapperSections (xml : String) (ms : List String) : String × String :=
  let cs := xml.data
  match findOpenListingsIdx cs, findCloseListingsIdx cs with
  | some openIdx, some closeIdx =>
    let gtIdx : Int :=
      match ((cs.drop openIdx).findIdx? (· == '>')).map (· + openIdx) with
      | some k => (k : Int)
      | none => -1
    let headerSection := String.mk (jsSlice cs 0 (gtIdx + 1))
    let footerSection := String.mk (jsSlice cs (closeIdx : Int) (cs.length : Int))
    (headerSection, footerSection)
  | _, _ => fallbackWrapper xml ms

/-! ### Configuration: `BATCH_SIZE` -/

/-- `parseInt(s, 100)` per ECMAScript `parseInt` (step: let `R` be the radix;
if `R ≠ 0` and (`R < 2` or `R > 36`) return `NaN`): the radix `100` used on
line 24 of the script is outside `[2, 36]`, so the result is `NaN` for every
argument, including an unset (`undefined`) environment variable.  `none`
encodes `NaN`. -/
def parseIntRadix100 (_s : Option String) : Option Int :=
  none

/-- `const BATCH_SIZE = parseInt(process.env.BATCH_SIZE, 100) || 130;`
(`NaN` and `0` are falsy, so `||` replaces them with `130`). -/
def BATCH_SIZE (env : Option String) : Int :=
  match parseIntRadix100 env with
  | some n => if n = 0 then 130 else n
  | none => 130

/-! ### Batch partitioning and reconstruction

The loop on lines 103–139: `for (let i = 0; i < total; i += BATCH_SIZE)` with
`batchMatches = listingMatches.slice(i, i + BATCH_SIZE)`.  For a positive
batch size this is exactly the take/drop chunking below (structural fuel:
every step consumes at least one record, so `records.length` steps suffice).
The `B ≤ 0` behaviour of the raw loop is modelled separately by
`loopBatchesFuel`. -/

def partitionAux : Nat → Nat → List String → List (List String)
  | 0, _, _ => []
  | fuel + 1, B, rs =>
    if rs = [] ∨ B = 0 then []
    else rs.take B :: partitionAux fuel B (rs.drop B)

/-- The ordered record groups produced by the batching loop (batch size `B`,
assumed positive as in the program, where it is always `130`). -/
def partitionRecords (B : Nat) (rs : List String) : List (List String) :=
  partitionAux rs.length B rs

/-- `batchMatches.join('\n')`. -/
def joinNL : List String → String
  | [] => ""
  | [s] => s
  | s :: rest => s ++ "\n" ++ joinNL rest

/-- `headerSection + '\n' + batchMatches.join('\n') + '\n' + footerSection`
(line 110). -/
def reconstruct (headerSection footerSection : String) (grp : List String) : String :=
  headerSection ++ "\n" ++ joinNL grp ++ "\n" ++ footerSection

/-- `String(loteIndex).padStart(3, '0')`. -/
def padStart3 (s : String) : String :=
  if 3 ≤ s.length then s else String.mk (List.replicate (3 - s.length) '0') ++ s

/-- `path.join(OUTPUT_DIR, `lote_NNN.xml`)` with `OUTPUT_DIR = cwd/lotes`. -/
def fileName (loteIndex : Nat) : String :=
  "lotes/lote_" ++ padStart3 (toString loteIndex) ++ ".xml"

/-! ### Confirmation gate -/

/-- `(ans || '').trim().toLowerCase()`: drop leading and trailing whitespace,
then lowercase every character. -/
def jsTrimLower (ans : String) : String :=
  String.mk
    ((((ans.data.dropWhile Char.isWhitespace).reverse.dropWhile
        Char.isWhitespace).reverse).map Char.toLower)

/-- `askQuestion` resolves `(ans || '').trim().toLowerCase()` and line 120
compares the answer with `'s'` and `'sim'`. -/
def accepts (ans : String) : Bool :=
  jsTrimLower ans == "s" || jsTrimLower ans == "sim"

/-! ### The observable effects of a run -/

/-- One observable effect of the script, in program order.  The `Nat` fields
are the 1-based `loteIndex` of the batch an effect belongs to. -/
inductive Event : Type where
  /-- `process.env.NODE_TLS_REJECT_UNAUTHORIZED = v` (line 30). -/
  | setTls (v : String)
  /-- the source load of `fetchXmlText` (local read or `axios.get`). -/
  | fetch (url : String)
  /-- the diagnostic `xmlText.substring(0, 500)` printed when no listing
  matched (line 63). -/
  | logPreview (s : String)
  /-- `fs.mkdirSync(OUTPUT_DIR, ...)` (line 95). -/
  | mkdir
  /-- `fs.writeFileSync(fileName, batchXml, 'utf8')` (line 114). -/
  | writeFile (loteIndex : Nat) (name content : String)
  /-- the confirmation question for a batch (line 118). -/
  | prompt (loteIndex : Nat)
  /-- `axios.post(API_URL, payload, ...)` carrying the batch XML (line 129). -/
  | post (loteIndex : Nat) (payload : String)
  /-- the success log of line 130. -/
  | logOk (loteIndex : Nat)
  /-- the per-batch error log of line 132 (catch around the post). -/
  | logErr (loteIndex : Nat)
  /-- the skip log of line 135. -/
  | logSkip (loteIndex : Nat)
deriving DecidableEq, Repr

/-- How the run ends. -/
inductive Outcome : Type where
  /-- the fatal path: an exception reached the outer catch (line 143). -/
  | fatalError
  /-- zero listings: lines 60–65, report, preview, `return`. -/
  | noRecords
  /-- normal completion (line 142). -/
  | finished
deriving DecidableEq, Repr

/-- Events of one iteration of the batch loop (lines 103–139): persist the
batch, ask, and either post (logging success or failure) or log the skip. -/
def blockEvents (answers : Nat → String) (sendOk : Nat → Bool)
    (loteIndex : Nat) (batchXml : String) : List Event :=
  Event.writeFile loteIndex (fileName loteIndex) batchXml ::
  Event.prompt loteIndex ::
  (if accepts (answers loteIndex) then
    Event.post loteIndex batchXml ::
      (if sendOk loteIndex then [Event.logOk loteIndex] else [Event.logErr loteIndex])
  else [Event.logSkip loteIndex])

/-- The batch loop, emitting `blockEvents` per batch; same fuel discipline as
`partitionAux`. -/
def batchEventsAux (headerSection footerSection : String)
    (answers : Nat → String) (sendOk : Nat → Bool) :
    Nat → Nat → Nat → List String → List Event
  | 0, _, _, _ => []
  | fuel + 1, B, loteIndex, rs =>
    if rs = [] ∨ B = 0 then []
    else
      blockEvents answers sendOk loteIndex
          (reconstruct headerSection footerSection (rs.take B)) ++
        batchEventsAux headerSection footerSection answers sendOk fuel B
          (loteIndex + 1) (rs.drop B)

/-- Events of the whole batch loop starting at `loteIndex`. -/
def batchEvents (B : Nat) (headerSection footerSection : String)
    (answers : Nat → String) (sendOk : Nat → Bool)
    (loteIndex : Nat) (rs : List String) : List Event :=
  batchEventsAux headerSection footerSection answers sendOk rs.length B loteIndex rs

/-- The whole run of `main` (lines 30 and 49–147).  `xml` is the text the
source loader returned, `answers` the operator's input lines per batch, and
`sendOk` whether the post for a batch succeeds (network errors, non-success
statuses and timeouts all land in the catch). -/
def mainRun (url : String) (benv : Option String) (xml : String)
    (answers : Nat → String) (sendOk : Nat → Bool) : List Event × Outcome :=
  if xml = "" then
    ([Event.setTls "0", Event.fetch url], Outcome.fatalError)
  else if extractListings xml = [] then
    ([Event.setTls "0", Event.fetch url,
      Event.logPreview (jsSubstring0 xml 500)], Outcome.noRecords)
  else
    (Event.setTls "0" :: Event.fetch url :: Event.mkdir ::
      batchEvents (BATCH_SIZE benv).toNat
        (wrapperSections xml (extractListings xml)).1
        (wrapperSections xml (extractListings xml)).2
        answers sendOk 1 (extractListings xml),
     Outcome.finished)

/-! ### The raw loop for non-positive batch sizes

`for (let i = 0; i < total; i += BATCH_SIZE)` with an arbitrary integer
`BATCH_SIZE`, instrumented with fuel: the first component collects the
batches `listingMatches.slice(i, i + BATCH_SIZE)` emitted within `fuel`
iterations, the second is `true` iff the loop exited within the fuel. -/
def loopBatchesFuel : Nat → Int → Int → List String → List (List String) × Bool
  | 0, _, _, _ => ([], false)
  | fuel + 1, B, i, rs =>
    if i < (rs.length : Int) then
      let r := loopBatchesFuel fuel B (i + B) rs
      (jsSlice rs i (i + B) :: r.1, r.2)
    else ([], true)

/-! ### Round-trip helpers (the operations named by the spec's round-trip
property): strip the shared wrapper plus the added newlines, split on the
join separator. -/

/-- Splitting on `'\n'`, JavaScript `s.split('\n')` (never empty; splitting
the empty string yields `[""]`). -/
def splitNLChars : List Char → List (List Char)
  | [] => [[]]
  | c :: cs =>
    if c = '\n' then [] :: splitNLChars cs
    else
      match splitNLChars cs with
      | h :: t => (c :: h) :: t
      | [] => [[c]]

/-- `batchText.split('\n')` as `String`s. -/
def jsSplitNL (s : String) : List String :=
  (splitNLChars s.data).map String.mk

/-- Strip `headerSection ++ "\n"` from the front and `"\n" ++ footerSection`
from the back of a reconstructed batch text. -/
def stripWrap (headerSection footerSection t : String) : String :=
  let l := t.data.drop (headerSection.data.length + 1)
  String.mk (l.take (l.length - (footerSection.data.length + 1)))

/-! ## Basic facts about the configuration -/

/-- Because `parseInt(·, 100)` is constantly `NaN`, the batch size is `130`
no matter what `process.env.BATCH_SIZE` holds. -/
theorem BATCH_SIZE_const (env : Option String) : BATCH_SIZE env = 130 := rfl

theorem BATCH_SIZE_toNat (env : Option String) : (BATCH_SIZE env).toNat = 130 := rfl

/-! ## Partitioner lemmas -/

theorem partitionAux_join (B : Nat) (hB : 0 < B) :
    ∀ (fuel : Nat) (rs : List String), rs.length ≤ fuel →
      (partitionAux fuel B rs).flatten = rs := by
  intro fuel
  induction fuel with
  | zero =>
    intro rs hle
    have hrs : rs = [] := List.length_eq_zero.mp (Nat.le_zero.mp hle)
    subst hrs; rfl
  | succ n ih =>
    intro rs hle
    by_cases h : rs = []
    · subst h; simp [partitionAux]
    · have hpos : 0 < rs.length := List.length_pos.mpr h
      have hguard : ¬(rs = [] ∨ B = 0) := by
        push_neg; exact ⟨h, Nat.pos_iff_ne_zero.mp hB⟩
      rw [partitionAux, if_neg hguard, List.flatten_cons,
        ih (rs.drop B) (by rw [List.length_drop]; omega),
        List.take_append_drop]

theorem partitionAux_length (B : Nat) (hB : 0 < B) :
    ∀ (fuel : Nat) (rs : List String), rs.length ≤ fuel →
      (partitionAux fuel B rs).length = (rs.length + B - 1) / B := by
  intro fuel
  induction fuel with
  | zero =>
    intro rs hle
    have hrs : rs = [] := List.length_eq_zero.mp (Nat.le_zero.mp hle)
    subst hrs
    simp [partitionAux, Nat.div_eq_of_lt (show B - 1 < B by omega)]
  | succ n ih =>
    intro rs hle
    by_cases h : rs = []
    · subst h
      rw [partitionAux, if_pos (Or.inl rfl)]
      simp only [List.length_nil]
      have h0 : 0 + B - 1 = B - 1 := by omega
      rw [h0]
      exact (Nat.div_eq_of_lt (by omega)).symm
    · have hpos : 0 < rs.length := List.length_pos.mpr h
      have hguard : ¬(rs = [] ∨ B = 0) := by
        push_neg; exact ⟨h, Nat.pos_iff_ne_zero.mp hB⟩
      rw [partitionAux, if_neg hguard]
      have hrec := ih (rs.drop B) (by rw [List.length_drop]; omega)
      rw [List.length_cons, hrec, List.length_drop]
      have hL : rs.length + B - 1 = (rs.length - 1) + B := by omega
      rw [hL, Nat.add_div_right _ hB]
      rcases le_or_lt B rs.length with hBN | hNB
      · have h1 : rs.length - B + B - 1 = rs.length - 1 := by omega
        rw [h1]
      · have h1 : rs.length - B = 0 := by omega
        rw [h1]
        rw [Nat.div_eq_of_lt (show 0 + B - 1 < B by omega),
          Nat.div_eq_of_lt (show rs.length - 1 < B by omega)]

theorem partitionAux_get?_ne_nil (B : Nat) (grp : List String) :
    ∀ (g fuel : Nat) (rs : List String),
      (partitionAux fuel B rs)[g]? = some grp → grp ≠ [] := by
  intro g
  induction g with
  | zero =>
    intro fuel rs hg
    match fuel with
    | 0 => simp [partitionAux] at hg
    | n + 1 =>
      by_cases h : rs = [] ∨ B = 0
      · rw [partitionAux, if_pos h] at hg; simp at hg
      · rw [partitionAux, if_neg h, List.getElem?_cons_zero] at hg
        push_neg at h
        intro hnil
        rw [← Option.some_inj.mp hg] at hnil
        rcases List.take_eq_nil_iff.mp hnil with h0 | h0
        · exact h.2 h0
        · exact h.1 h0
  | succ g ih =>
    intro fuel rs hg
    match fuel with
    | 0 => simp [partitionAux] at hg
    | n + 1 =>
      by_cases h : rs = [] ∨ B = 0
      · rw [partitionAux, if_pos h] at hg; simp at hg
      · rw [partitionAux, if_neg h, List.getElem?_cons_succ] at hg
        exact ih n (rs.drop B) hg

/-- C1 helper: any indexed group of the partition is the corresponding
take-slice of the remaining records, and those remaining records are
nonempty. -/
theorem partitionAux_get?_eq (B : Nat) (grp : List String) :
    ∀ (g fuel : Nat) (rs : List String),
      (partitionAux fuel B rs)[g]? = some grp →
      rs.drop (B * g) ≠ [] ∧ grp = (rs.drop (B * g)).take B := by
  intro g
  induction g with
  | zero =>
    intro fuel rs hg
    match fuel with
    | 0 => simp [partitionAux] at hg
    | n + 1 =>
      by_cases h : rs = [] ∨ B = 0
      · rw [partitionAux, if_pos h] at hg; simp at hg
      · rw [partitionAux, if_neg h, List.getElem?_cons_zero] at hg
        push_neg at h
        simp only [Nat.mul_zero, List.drop_zero]
        exact ⟨h.1, (Option.some_inj.mp hg).symm⟩
  | succ g ih =>
    intro fuel rs hg
    match fuel with
    | 0 => simp [partitionAux] at hg
    | n + 1 =>
      by_cases h : rs = [] ∨ B = 0
      · rw [partitionAux, if_pos h] at hg; simp at hg
      · rw [partitionAux, if_neg h, List.getElem?_cons_succ] at hg
        have := ih n (rs.drop B) hg
        rw [List.drop_drop] at this
        have harith : B + B * g = B * (g + 1) := by ring
        rw [harith] at this
        exact this

/-- C1.  For every nonempty record sequence and positive batch size `B`
(in the program `B = 130`), the batching loop produces exactly
`⌈N / B⌉ = (N + B - 1) / B` batches, the record counts over the batches sum
to `N`, and concatenating the batches' record groups in emission order
reproduces the extracted record sequence exactly. -/
theorem C1_partition_exact (B : Nat) (records : List String)
    (hB : 0 < B) (_hN : records ≠ []) :
    (partitionRecords B records).length = (records.length + B - 1) / B ∧
    ((partitionRecords B records).map List.length).sum = records.length ∧
    (partitionRecords B records).flatten = records := by
  have hjoin := partitionAux_join B hB records.length records (Nat.le_refl _)
  refine ⟨partitionAux_length B hB records.length records (Nat.le_refl _), ?_, hjoin⟩
  have := List.length_flatten (partitionAux records.length B records)
  rw [hjoin] at this
  exact this.symm

/-- Witness for C1 at `B = 2`, `records = ["a", "b", "c"]`. -/
theorem C1_partition_exact_witness :
    (0 < 2 ∧ (["a", "b", "c"] : List String) ≠ []) ∧
    ((partitionRecords 2 ["a", "b", "c"]).length = (3 + 2 - 1) / 2 ∧
      ((partitionRecords 2 ["a", "b", "c"]).map List.length).sum = 3 ∧
      (partitionRecords 2 ["a", "b", "c"]).flatten = ["a", "b", "c"]) :=
  ⟨by decide, C1_partition_exact 2 ["a", "b", "c"] (by decide) (by decide)⟩

/-! ## The batch size environment override is dead (C9), and no
`InvalidBatchSize` guard exists (C6) -/

/-- C9.  Setting `BATCH_SIZE=5` in the environment does not change the batch
size: `parseInt(value, 100)` is `NaN` for every value because the radix `100`
is invalid, so `BATCH_SIZE` is `130` with or without a configured value.
This contradicts the script's own usage header (`export BATCH_SIZE=150`) and
the comment on line 23 (`Pode definir via ENV BATCH_SIZE`). -/
theorem C9_batch_size_env_ignored :
    BATCH_SIZE (some "5") = 130 ∧
    BATCH_SIZE none = 130 ∧
    ∀ env : Option String, BATCH_SIZE env = 130 :=
  ⟨rfl, rfl, fun _ => rfl⟩

/-- C6 counterexample.  Running the raw batching loop with `B = 0` on one
record: after 50 iterations the loop has not exited and has already emitted
50 (empty) batches — the loop neither aborts nor raises any
`InvalidBatchSize`; no such failure exists in the program. -/
theorem C6_counterexample :
    (loopBatchesFuel 50 0 0 ["r"]).2 = false ∧
    (loopBatchesFuel 50 0 0 ["r"]).1.length = 50 := by
  decide

/-- C6 (amended).  The program can never reach the loop with `B ≤ 0`: its
batch size is always `130 > 0` (the environment override is dead code), and
the code has no `InvalidBatchSize` check at all — for any `B ≤ 0` and a
nonempty record list the loop never exits, for any amount of fuel, instead
of failing. -/
theorem C6_no_invalid_batch_size_guard :
    (∀ env : Option String, BATCH_SIZE env = 130 ∧ 0 < BATCH_SIZE env) ∧
    ∀ (fuel : Nat) (B i : Int) (rs : List String), B ≤ 0 → i ≤ 0 → rs ≠ [] →
      (loopBatchesFuel fuel B i rs).2 = false := by
  refine ⟨fun env => ⟨rfl, ?_⟩, ?_⟩
  · rw [BATCH_SIZE_const env]; decide
  intro fuel
  induction fuel with
  | zero => intro B i rs _ _ _; rfl
  | succ n ih =>
    intro B i rs hB hi hrs
    have hlen : 0 < rs.length := List.length_pos.mpr hrs
    have hlt : i < (rs.length : Int) := by
      have : (0 : Int) < (rs.length : Int) := by exact_mod_cast hlen
      omega
    rw [loopBatchesFuel, if_pos hlt]
    exact ih B (i + B) rs hB (by omega) hrs

/-- Witness for C6's amended theorem at `fuel = 5`, `B = -1`, one record. -/
theorem C6_no_invalid_batch_size_guard_witness :
    ((-1 : Int) ≤ 0 ∧ (0 : Int) ≤ 0 ∧ (["r"] : List String) ≠ []) ∧
    (loopBatchesFuel 5 (-1) 0 ["r"]).2 = false :=
  ⟨by decide,
    C6_no_invalid_batch_size_guard.2 5 (-1) 0 ["r"] (by decide) (by decide) (by decide)⟩

/-! ## Trace helpers -/

/-- The `loteIndex` an event belongs to, if it is a per-batch event. -/
def evIdx? : Event → Option Nat
  | Event.writeFile i _ _ => some i
  | Event.prompt i => some i
  | Event.post i _ => some i
  | Event.logOk i => some i
  | Event.logErr i => some i
  | Event.logSkip i => some i
  | _ => none

def isPromptFor (i : Nat) : Event → Bool
  | Event.prompt j => i == j
  | _ => false

def isPostFor (i : Nat) : Event → Bool
  | Event.post j _ => i == j
  | _ => false

def isSetTls : Event → Bool
  | Event.setTls _ => true
  | _ => false

/-- The persisted files of a trace, in write order: (loteIndex, name,
content). -/
def writesOf (tr : List Event) : List (Nat × String × String) :=
  tr.filterMap fun e =>
    match e with
    | Event.writeFile i n c => some (i, n, c)
    | _ => none

theorem isPromptFor_imp (i : Nat) (e : Event) (h : isPromptFor i e = true) :
    evIdx? e = some i := by
  cases e <;> simp_all [isPromptFor, evIdx?]

theorem isPostFor_imp (i : Nat) (e : Event) (h : isPostFor i e = true) :
    evIdx? e = some i := by
  cases e <;> simp_all [isPostFor, evIdx?]

theorem isSetTls_false_of_evIdx (e : Event) (j : Nat) (h : evIdx? e = some j) :
    isSetTls e = false := by
  cases e <;> simp_all [isSetTls, evIdx?]

theorem countP_eq_zero_of_idx_bound (l : List Event) (i : Nat) (p : Event → Bool)
    (hp : ∀ e, p e = true → evIdx? e = some i)
    (hbound : ∀ e ∈ l, ∀ j, evIdx? e = some j → j ≠ i) :
    l.countP p = 0 := by
  rw [List.countP_eq_zero]
  intro e he hpe
  exact hbound e he i (hp e hpe) rfl

/-! ## Structure of the batch loop's trace -/

theorem evIdx?_blockEvents (a : Nat → String) (o : Nat → Bool) (i : Nat) (x : String)
    (e : Event) (he : e ∈ blockEvents a o i x) : evIdx? e = some i := by
  cases h1 : accepts (a i) <;> cases h2 : o i <;>
    simp [blockEvents, h1, h2] at he <;>
    rcases he with rfl | rfl | rfl | rfl <;> rfl

theorem blockEvents_decline (a : Nat → String) (o : Nat → Bool) (i : Nat) (x : String)
    (h : accepts (a i) = false) :
    blockEvents a o i x =
      [Event.writeFile i (fileName i) x, Event.prompt i, Event.logSkip i] := by
  simp [blockEvents, h]

theorem blockEvents_accept_fail (a : Nat → String) (o : Nat → Bool) (i : Nat) (x : String)
    (h : accepts (a i) = true) (hf : o i = false) :
    blockEvents a o i x =
      [Event.writeFile i (fileName i) x, Event.prompt i, Event.post i x,
        Event.logErr i] := by
  simp [blockEvents, h, hf]

theorem prompt_mem_blockEvents (a : Nat → String) (o : Nat → Bool) (i : Nat) (x : String) :
    Event.prompt i ∈ blockEvents a o i x := by
  simp [blockEvents]

theorem writeFile_mem_blockEvents (a : Nat → String) (o : Nat → Bool) (i : Nat) (x : String) :
    Event.writeFile i (fileName i) x ∈ blockEvents a o i x := by
  simp [blockEvents]

theorem countP_prompt_blockEvents (a : Nat → String) (o : Nat → Bool) (i : Nat) (x : String) :
    (blockEvents a o i x).countP (isPromptFor i) = 1 := by
  cases h1 : accepts (a i) <;> cases h2 : o i <;>
    simp [blockEvents, h1, h2, List.countP_cons, isPromptFor]

theorem countP_post_blockEvents_accept (a : Nat → String) (o : Nat → Bool) (i : Nat)
    (x : String) (h : accepts (a i) = true) :
    (blockEvents a o i x).countP (isPostFor i) = 1 := by
  cases h2 : o i <;>
    simp [blockEvents, h, h2, List.countP_cons, isPostFor]

theorem mem_batchEventsAux_idx (hdr ftr : String) (a : Nat → String) (o : Nat → Bool)
    (B : Nat) :
    ∀ (fuel idx : Nat) (rs : List String) (e : Event),
      e ∈ batchEventsAux hdr ftr a o fuel B idx rs →
      ∃ j, evIdx? e = some j ∧ idx ≤ j := by
  intro fuel
  induction fuel with
  | zero => intro idx rs e he; simp [batchEventsAux] at he
  | succ n ih =>
    intro idx rs e he
    by_cases hgd : rs = [] ∨ B = 0
    · rw [batchEventsAux, if_pos hgd] at he; simp at he
    · rw [batchEventsAux, if_neg hgd] at he
      rcases List.mem_append.mp he with hb | hr
      · exact ⟨idx, evIdx?_blockEvents a o idx _ e hb, Nat.le_refl idx⟩
      · obtain ⟨j, hj, hle⟩ := ih (idx + 1) (rs.drop B) e hr
        exact ⟨j, hj, by omega⟩

/-- The trace of the batch loop splits around the block of the `g`-th batch;
every event before it has a smaller `loteIndex`, every event after it a
larger one. -/
theorem batchEventsAux_decomp (hdr ftr : String) (a : Nat → String) (o : Nat → Bool)
    (B : Nat) :
    ∀ (g fuel idx : Nat) (rs grp : List String),
      (partitionAux fuel B rs)[g]? = some grp →
      ∃ pre suf,
        batchEventsAux hdr ftr a o fuel B idx rs =
          pre ++ blockEvents a o (idx + g) (reconstruct hdr ftr grp) ++ suf ∧
        (∀ e ∈ pre, ∀ j, evIdx? e = some j → j < idx + g) ∧
        (∀ e ∈ suf, ∀ j, evIdx? e = some j → idx + g < j) := by
  intro g
  induction g with
  | zero =>
    intro fuel idx rs grp hg
    match fuel with
    | 0 => simp [partitionAux] at hg
    | n + 1 =>
      by_cases hgd : rs = [] ∨ B = 0
      · rw [partitionAux, if_pos hgd] at hg; simp at hg
      · rw [partitionAux, if_neg hgd, List.getElem?_cons_zero] at hg
        have hgrp := Option.some_inj.mp hg
        refine ⟨[], batchEventsAux hdr ftr a o n B (idx + 1) (rs.drop B), ?_, ?_, ?_⟩
        · rw [batchEventsAux, if_neg hgd, hgrp]
          simp
        · intro e he; simp at he
        · intro e he j hj
          obtain ⟨j', hj', hle⟩ :=
            mem_batchEventsAux_idx hdr ftr a o B n (idx + 1) (rs.drop B) e he
          rw [hj'] at hj
          have := Option.some_inj.mp hj
          omega
  | succ g ih =>
    intro fuel idx rs grp hg
    match fuel with
    | 0 => simp [partitionAux] at hg
    | n + 1 =>
      by_cases hgd : rs = [] ∨ B = 0
      · rw [partitionAux, if_pos hgd] at hg; simp at hg
      · rw [partitionAux, if_neg hgd, List.getElem?_cons_succ] at hg
        obtain ⟨pre, suf, heq, hpre, hsuf⟩ := ih n (idx + 1) (rs.drop B) grp hg
        have harith : idx + 1 + g = idx + (g + 1) := by omega
        rw [harith] at heq hpre hsuf
        refine ⟨blockEvents a o idx (reconstruct hdr ftr (rs.take B)) ++ pre, suf,
          ?_, ?_, hsuf⟩
        · rw [batchEventsAux, if_neg hgd, heq]
          simp [List.append_assoc]
        · intro e he j hj
          rcases List.mem_append.mp he with hb | hp
          · have := evIdx?_blockEvents a o idx _ e hb
            rw [this] at hj
            have := Option.some_inj.mp hj
            omega
          · exact hpre e hp j hj

theorem writesOf_blockEvents (a : Nat → String) (o : Nat → Bool) (i : Nat) (x : String) :
    writesOf (blockEvents a o i x) = [(i, fileName i, x)] := by
  cases h1 : accepts (a i) <;> cases h2 : o i <;>
    simp [writesOf, blockEvents, h1, h2, List.filterMap_cons]

/-- The write events of the batch loop, in order: the `g`-th write persists
the `g`-th record group, reconstructed, under the name of `loteIndex`
`idx + g`. -/
theorem writesOf_batchEventsAux_get? (hdr ftr : String) (a : Nat → String)
    (o : Nat → Bool) (B : Nat) :
    ∀ (g fuel idx : Nat) (rs grp : List String),
      (partitionAux fuel B rs)[g]? = some grp →
      (writesOf (batchEventsAux hdr ftr a o fuel B idx rs))[g]? =
        some (idx + g, fileName (idx + g), reconstruct hdr ftr grp) := by
  intro g
  induction g with
  | zero =>
    intro fuel idx rs grp hg
    match fuel with
    | 0 => simp [partitionAux] at hg
    | n + 1 =>
      by_cases hgd : rs = [] ∨ B = 0
      · rw [partitionAux, if_pos hgd] at hg; simp at hg
      · rw [partitionAux, if_neg hgd, List.getElem?_cons_zero] at hg
        have hgrp := Option.some_inj.mp hg
        rw [batchEventsAux, if_neg hgd, writesOf, List.filterMap_append]
        rw [← writesOf, ← writesOf, writesOf_blockEvents, hgrp]
        simp
  | succ g ih =>
    intro fuel idx rs grp hg
    match fuel with
    | 0 => simp [partitionAux] at hg
    | n + 1 =>
      by_cases hgd : rs = [] ∨ B = 0
      · rw [partitionAux, if_pos hgd] at hg; simp at hg
      · rw [partitionAux, if_neg hgd, List.getElem?_cons_succ] at hg
        rw [batchEventsAux, if_neg hgd, writesOf, List.filterMap_append]
        rw [← writesOf, ← writesOf, writesOf_blockEvents]
        rw [List.singleton_append, List.getElem?_cons_succ]
        have := ih n (idx + 1) (rs.drop B) grp hg
        have harith : idx + 1 + g = idx + (g + 1) := by omega
        rw [harith] at this
        exact this

/-! ## Unfolding `mainRun` -/

theorem partition_get?_rs_ne_nil (B : Nat) (rs : List String) (g : Nat)
    (grp : List String)
    (hg : (partitionRecords B rs)[g]? = some grp) : rs ≠ [] := by
  intro h
  rw [h] at hg
  simp [partitionRecords, partitionAux] at hg

theorem mainRun_fst_of_records (url : String) (benv : Option String) (xml : String)
    (answers : Nat → String) (sendOk : Nat → Bool)
    (hxml : xml ≠ "") (hms : extractListings xml ≠ []) :
    (mainRun url benv xml answers sendOk).1 =
      Event.setTls "0" :: Event.fetch url :: Event.mkdir ::
        batchEvents (BATCH_SIZE benv).toNat
          (wrapperSections xml (extractListings xml)).1
          (wrapperSections xml (extractListings xml)).2
          answers sendOk 1 (extractListings xml) := by
  simp only [mainRun]
  rw [if_neg hxml, if_neg hms]

theorem mainRun_snd_of_records (url : String) (benv : Option String) (xml : String)
    (answers : Nat → String) (sendOk : Nat → Bool)
    (hxml : xml ≠ "") (hms : extractListings xml ≠ []) :
    (mainRun url benv xml answers sendOk).2 = Outcome.finished := by
  simp only [mainRun]
  rw [if_neg hxml, if_neg hms]

theorem padStart3_length (s : String) : (padStart3 s).length = max 3 s.length := by
  unfold padStart3
  by_cases h : 3 ≤ s.length
  · rw [if_pos h]; omega
  · rw [if_neg h]
    have hlen : (String.mk (List.replicate (3 - s.length) '0') ++ s).length =
        (3 - s.length) + s.length := by
      show (List.replicate (3 - s.length) '0' ++ s.data).length = _
      rw [List.length_append, List.length_replicate]
      rfl
    rw [hlen]
    omega

/-! ## C2: batch reconstruction, 1-based sequential indices, padded names -/

/-- C2.  The `g`-th written batch (0-based emission order) has `loteIndex`
`g + 1`, is persisted as `lotes/lote_` + zero-padded index + `.xml` with the
pad width at least 3, and its content is
`headerSection + '\n' + records joined with '\n' + '\n' + footerSection`. -/
theorem C2_batch_index_name_text (url : String) (benv : Option String) (xml : String)
    (answers : Nat → String) (sendOk : Nat → Bool) (g : Nat) (grp : List String)
    (hxml : xml ≠ "")
    (hg : (partitionRecords (BATCH_SIZE benv).toNat (extractListings xml))[g]? =
      some grp) :
    (writesOf (mainRun url benv xml answers sendOk).1)[g]? =
      some (g + 1,
        "lotes/lote_" ++ padStart3 (toString (g + 1)) ++ ".xml",
        (wrapperSections xml (extractListings xml)).1 ++ "\n" ++ joinNL grp ++ "\n" ++
          (wrapperSections xml (extractListings xml)).2) ∧
    3 ≤ (padStart3 (toString (g + 1))).length := by
  have hms : extractListings xml ≠ [] := partition_get?_rs_ne_nil _ _ _ _ hg
  constructor
  · rw [mainRun_fst_of_records url benv xml answers sendOk hxml hms]
    simp only [writesOf, List.filterMap_cons]
    simp only [partitionRecords] at hg
    have := writesOf_batchEventsAux_get?
      (wrapperSections xml (extractListings xml)).1
      (wrapperSections xml (extractListings xml)).2 answers sendOk
      (BATCH_SIZE benv).toNat g (extractListings xml).length 1 (extractListings xml)
      grp hg
    have h1g : 1 + g = g + 1 := by omega
    rw [h1g] at this
    simp only [batchEvents]
    rw [← writesOf]
    exact this
  · rw [padStart3_length]; omega

/-- Witness for C2 on a single-listing document. -/
theorem C2_batch_index_name_text_witness :
    ((partitionRecords (BATCH_SIZE none).toNat
        (extractListings "<Listing>A</Listing>"))[0]? = some ["<Listing>A</Listing>"]) ∧
    (writesOf (mainRun "u" none "<Listing>A</Listing>" (fun _ => "n")
        (fun _ => true)).1)[0]? =
      some (0 + 1,
        "lotes/lote_" ++ padStart3 (toString (0 + 1)) ++ ".xml",
        (wrapperSections "<Listing>A</Listing>"
            (extractListings "<Listing>A</Listing>")).1 ++ "\n" ++
          joinNL ["<Listing>A</Listing>"] ++ "\n" ++
          (wrapperSections "<Listing>A</Listing>"
            (extractListings "<Listing>A</Listing>")).2) :=
  ⟨by decide,
    (C2_batch_index_name_text "u" none "<Listing>A</Listing>" (fun _ => "n")
      (fun _ => true) 0 ["<Listing>A</Listing>"] (by decide) (by decide)).1⟩

/-! ## C5: zero records -/

/-- C5.  If the loaded document is nonempty but contains no listing block,
the run ends with the `noRecords` outcome (an ordinary `return`, not the
fatal catch), the trace contains the bounded 500-character preview of the
document, and no batch file is ever written. -/
theorem C5_no_records_diagnostic (url : String) (benv : Option String) (xml : String)
    (answers : Nat → String) (sendOk : Nat → Bool)
    (hxml : xml ≠ "") (hnr : extractListings xml = []) :
    mainRun url benv xml answers sendOk =
      ([Event.setTls "0", Event.fetch url, Event.logPreview (jsSubstring0 xml 500)],
        Outcome.noRecords) ∧
    (jsSubstring0 xml 500).length ≤ 500 ∧
    ∀ (i : Nat) (n c : String),
      Event.writeFile i n c ∉ (mainRun url benv xml answers sendOk).1 := by
  have hrw : mainRun url benv xml answers sendOk =
      ([Event.setTls "0", Event.fetch url, Event.logPreview (jsSubstring0 xml 500)],
        Outcome.noRecords) := by
    simp only [mainRun]
    rw [if_neg hxml, if_pos hnr]
  refine ⟨hrw, ?_, ?_⟩
  · show (xml.data.take 500).length ≤ 500
    rw [List.length_take]
    omega
  · intro i n c hmem
    rw [hrw] at hmem
    simp at hmem

/-- Witness for C5 on the record-free document `"hello"`. -/
theorem C5_no_records_diagnostic_witness :
    (("hello" : String) ≠ "" ∧ extractListings "hello" = []) ∧
    mainRun "u" none "hello" (fun _ => "") (fun _ => true) =
      ([Event.setTls "0", Event.fetch "u", Event.logPreview (jsSubstring0 "hello" 500)],
        Outcome.noRecords) :=
  ⟨⟨by decide, by decide⟩,
    (C5_no_records_diagnostic "u" none "hello" (fun _ => "") (fun _ => true)
      (by decide) (by decide)).1⟩

/-! ## C7: the confirmation gate -/

/-- C7.  The gate accepts exactly the inputs whose trimmed, lowercased form
is `"s"` or `"sim"`; on any other input for batch `g + 1` the transmitter is
never invoked for that batch, the skip outcome is logged, the batch is
prompted exactly once (no retry), the next batch (when it exists) is still
prompted, and the run still finishes normally. -/
theorem C7_gate_decline_skips (url : String) (benv : Option String) (xml : String)
    (answers : Nat → String) (sendOk : Nat → Bool) (g : Nat) (grp : List String)
    (hxml : xml ≠ "")
    (hg : (partitionRecords (BATCH_SIZE benv).toNat (extractListings xml))[g]? =
      some grp)
    (hdecl : accepts (answers (g + 1)) = false) :
    (∀ s, accepts s = true ↔ (jsTrimLower s = "s" ∨ jsTrimLower s = "sim")) ∧
    (∀ payload, Event.post (g + 1) payload ∉ (mainRun url benv xml answers sendOk).1) ∧
    Event.logSkip (g + 1) ∈ (mainRun url benv xml answers sendOk).1 ∧
    (mainRun url benv xml answers sendOk).1.countP (isPromptFor (g + 1)) = 1 ∧
    (∀ grp2,
      (partitionRecords (BATCH_SIZE benv).toNat (extractListings xml))[g + 1]? =
        some grp2 →
      Event.prompt (g + 2) ∈ (mainRun url benv xml answers sendOk).1) ∧
    (mainRun url benv xml answers sendOk).2 = Outcome.finished := by
  have hms : extractListings xml ≠ [] := partition_get?_rs_ne_nil _ _ _ _ hg
  simp only [partitionRecords] at hg
  obtain ⟨pre, suf, heq, hpre, hsuf⟩ :=
    batchEventsAux_decomp (wrapperSections xml (extractListings xml)).1
      (wrapperSections xml (extractListings xml)).2 answers sendOk
      (BATCH_SIZE benv).toNat g (extractListings xml).length 1 (extractListings xml)
      grp hg
  have h1g : 1 + g = g + 1 := by omega
  rw [h1g] at heq hpre hsuf
  have htr : (mainRun url benv xml answers sendOk).1 =
      Event.setTls "0" :: Event.fetch url :: Event.mkdir ::
        (pre ++ blockEvents answers sendOk (g + 1)
            (reconstruct (wrapperSections xml (extractListings xml)).1
              (wrapperSections xml (extractListings xml)).2 grp) ++ suf) := by
    rw [mainRun_fst_of_records url benv xml answers sendOk hxml hms]
    simp only [batchEvents]
    rw [heq]
  refine ⟨?_, ?_, ?_, ?_, ?_, mainRun_snd_of_records url benv xml answers sendOk hxml hms⟩
  · intro s; simp [accepts]
  · intro payload hmem
    rw [htr] at hmem
    simp only [List.mem_cons, List.mem_append] at hmem
    rcases hmem with h | h | h | (h | h) | h
    · exact Event.noConfusion h
    · exact Event.noConfusion h
    · exact Event.noConfusion h
    · have := hpre _ h (g + 1) rfl; omega
    · rw [blockEvents_decline answers sendOk _ _ hdecl] at h
      simp at h
    · have := hsuf _ h (g + 1) rfl; omega
  · rw [htr, blockEvents_decline answers sendOk _ _ hdecl]
    simp
  · rw [htr]
    have hzpre : pre.countP (isPromptFor (g + 1)) = 0 :=
      countP_eq_zero_of_idx_bound pre (g + 1) _ (isPromptFor_imp (g + 1))
        (fun e he j hj => by have := hpre e he j hj; omega)
    have hzsuf : suf.countP (isPromptFor (g + 1)) = 0 :=
      countP_eq_zero_of_idx_bound suf (g + 1) _ (isPromptFor_imp (g + 1))
        (fun e he j hj => by have := hsuf e he j hj; omega)
    simp [List.countP_cons, List.countP_append, hzpre, hzsuf,
      countP_prompt_blockEvents, isPromptFor]
  · intro grp2 hg2
    simp only [partitionRecords] at hg2
    obtain ⟨pre2, suf2, heq2, _, _⟩ :=
      batchEventsAux_decomp (wrapperSections xml (extractListings xml)).1
        (wrapperSections xml (extractListings xml)).2 answers sendOk
        (BATCH_SIZE benv).toNat (g + 1) (extractListings xml).length 1
        (extractListings xml) grp2 hg2
    have h2g : 1 + (g + 1) = g + 2 := by omega
    rw [h2g] at heq2
    rw [mainRun_fst_of_records url benv xml answers sendOk hxml hms]
    simp only [batchEvents]
    rw [heq2]
    simp [prompt_mem_blockEvents]

/-- Witness for C7: one listing, answer `"n"`: the skip is logged. -/
theorem C7_gate_decline_skips_witness :
    (accepts "n" = false ∧
      (partitionRecords (BATCH_SIZE none).toNat
        (extractListings "<Listing>A</Listing>"))[0]? = some ["<Listing>A</Listing>"]) ∧
    Event.logSkip 1 ∈
      (mainRun "u" none "<Listing>A</Listing>" (fun _ => "n") (fun _ => true)).1 :=
  ⟨⟨by decide, by decide⟩,
    (C7_gate_decline_skips "u" none "<Listing>A</Listing>" (fun _ => "n")
      (fun _ => true) 0 ["<Listing>A</Listing>"] (by decide) (by decide)
      (by decide)).2.2.1⟩

/-! ## C8: transmission-error isolation -/

/-- C8.  When the transmission of batch `g + 1` is confirmed and fails, the
per-batch error is logged, exactly one post is attempted for that batch (no
retry), every batch of the run — before or after — is still persisted and
prompted, and the run completes normally instead of aborting. -/
theorem C8_transmission_error_isolated (url : String) (benv : Option String)
    (xml : String) (answers : Nat → String) (sendOk : Nat → Bool) (g : Nat)
    (grp : List String)
    (hxml : xml ≠ "")
    (hg : (partitionRecords (BATCH_SIZE benv).toNat (extractListings xml))[g]? =
      some grp)
    (hacc : accepts (answers (g + 1)) = true)
    (hfail : sendOk (g + 1) = false) :
    Event.logErr (g + 1) ∈ (mainRun url benv xml answers sendOk).1 ∧
    (mainRun url benv xml answers sendOk).1.countP (isPostFor (g + 1)) = 1 ∧
    (∀ (g' : Nat) (grp' : List String),
      (partitionRecords (BATCH_SIZE benv).toNat (extractListings xml))[g']? =
        some grp' →
      Event.writeFile (g' + 1) (fileName (g' + 1))
          (reconstruct (wrapperSections xml (extractListings xml)).1
            (wrapperSections xml (extractListings xml)).2 grp') ∈
        (mainRun url benv xml answers sendOk).1 ∧
      Event.prompt (g' + 1) ∈ (mainRun url benv xml answers sendOk).1) ∧
    (mainRun url benv xml answers sendOk).2 = Outcome.finished := by
  have hms : extractListings xml ≠ [] := partition_get?_rs_ne_nil _ _ _ _ hg
  simp only [partitionRecords] at hg
  obtain ⟨pre, suf, heq, hpre, hsuf⟩ :=
    batchEventsAux_decomp (wrapperSections xml (extractListings xml)).1
      (wrapperSections xml (extractListings xml)).2 answers sendOk
      (BATCH_SIZE benv).toNat g (extractListings xml).length 1 (extractListings xml)
      grp hg
  have h1g : 1 + g = g + 1 := by omega
  rw [h1g] at heq hpre hsuf
  have htr : (mainRun url benv xml answers sendOk).1 =
      Event.setTls "0" :: Event.fetch url :: Event.mkdir ::
        (pre ++ blockEvents answers sendOk (g + 1)
            (reconstruct (wrapperSections xml (extractListings xml)).1
              (wrapperSections xml (extractListings xml)).2 grp) ++ suf) := by
    rw [mainRun_fst_of_records url benv xml answers sendOk hxml hms]
    simp only [batchEvents]
    rw [heq]
  refine ⟨?_, ?_, ?_, mainRun_snd_of_records url benv xml answers sendOk hxml hms⟩
  · rw [htr, blockEvents_accept_fail answers sendOk _ _ hacc hfail]
    simp
  · rw [htr]
    have hzpre : pre.countP (isPostFor (g + 1)) = 0 :=
      countP_eq_zero_of_idx_bound pre (g + 1) _ (isPostFor_imp (g + 1))
        (fun e he j hj => by have := hpre e he j hj; omega)
    have hzsuf : suf.countP (isPostFor (g + 1)) = 0 :=
      countP_eq_zero_of_idx_bound suf (g + 1) _ (isPostFor_imp (g + 1))
        (fun e he j hj => by have := hsuf e he j hj; omega)
    simp [List.countP_cons, List.countP_append, hzpre, hzsuf,
      countP_post_blockEvents_accept answers sendOk (g + 1) _ hacc, isPostFor]
  · intro g' grp' hg'
    simp only [partitionRecords] at hg'
    obtain ⟨pre', suf', heq', _, _⟩ :=
      batchEventsAux_decomp (wrapperSections xml (extractListings xml)).1
        (wrapperSections xml (extractListings xml)).2 answers sendOk
        (BATCH_SIZE benv).toNat g' (extractListings xml).length 1
        (extractListings xml) grp' hg'
    have h1g' : 1 + g' = g' + 1 := by omega
    rw [h1g'] at heq'
    rw [mainRun_fst_of_records url benv xml answers sendOk hxml hms]
    simp only [batchEvents]
    rw [heq']
    constructor
    · simp [writeFile_mem_blockEvents]
    · simp [prompt_mem_blockEvents]

/-- Witness for C8: one listing, confirmed, failing post: the error is
logged per batch. -/
theorem C8_transmission_error_isolated_witness :
    (accepts "s" = true ∧
      (partitionRecords (BATCH_SIZE none).toNat
        (extractListings "<Listing>A</Listing>"))[0]? = some ["<Listing>A</Listing>"]) ∧
    Event.logErr 1 ∈
      (mainRun "u" none "<Listing>A</Listing>" (fun _ => "s") (fun _ => false)).1 :=
  ⟨⟨by decide, by decide⟩,
    (C8_transmission_error_isolated "u" none "<Listing>A</Listing>" (fun _ => "s")
      (fun _ => false) 0 ["<Listing>A</Listing>"] (by decide) (by decide)
      (by decide) (by decide)).1⟩

/-! ## C10: TLS certificate verification is disabled up front -/

/-- C10.  Every run's very first observable effect — before the source fetch
and before any batch post — is `NODE_TLS_REJECT_UNAUTHORIZED = "0"` (line 30
runs at module load), and no later event of the run ever touches that
setting again, so certificate verification stays disabled for every network
operation of the run. -/
theorem C10_tls_disabled_process_wide (url : String) (benv : Option String)
    (xml : String) (answers : Nat → String) (sendOk : Nat → Bool) :
    (mainRun url benv xml answers sendOk).1.head? = some (Event.setTls "0") ∧
    (mainRun url benv xml answers sendOk).1.tail.countP isSetTls = 0 := by
  by_cases hxml : xml = ""
  · have hrw : mainRun url benv xml answers sendOk =
        ([Event.setTls "0", Event.fetch url], Outcome.fatalError) := by
      simp only [mainRun]; rw [if_pos hxml]
    rw [hrw]
    exact ⟨rfl, by simp [isSetTls]⟩
  · by_cases hnr : extractListings xml = []
    · have hrw : mainRun url benv xml answers sendOk =
          ([Event.setTls "0", Event.fetch url, Event.logPreview (jsSubstring0 xml 500)],
            Outcome.noRecords) := by
        simp only [mainRun]; rw [if_neg hxml, if_pos hnr]
      rw [hrw]
      exact ⟨rfl, by simp [isSetTls]⟩
    · rw [mainRun_fst_of_records url benv xml answers sendOk hxml hnr]
      refine ⟨rfl, ?_⟩
      have hz : (batchEvents (BATCH_SIZE benv).toNat
          (wrapperSections xml (extractListings xml)).1
          (wrapperSections xml (extractListings xml)).2
          answers sendOk 1 (extractListings xml)).countP isSetTls = 0 := by
        rw [List.countP_eq_zero]
        intro e he
        obtain ⟨j, hj, _⟩ :=
          mem_batchEventsAux_idx (wrapperSections xml (extractListings xml)).1
            (wrapperSections xml (extractListings xml)).2 answers sendOk
            (BATCH_SIZE benv).toNat (extractListings xml).length 1
            (extractListings xml) e he
        simp [isSetTls_false_of_evIdx e j hj]
      simp [List.countP_cons, isSetTls, hz]

/-! ## C3: the round-trip property -/

theorem splitNLChars_no_newline : ∀ (l : List Char), '\n' ∉ l →
    splitNLChars l = [l] := by
  intro l
  induction l with
  | nil => intro _; rfl
  | cons c cs ih =>
    intro h
    have hc : ¬c = '\n' := fun hc => h (by simp [hc])
    rw [splitNLChars, if_neg hc, ih (fun hm => h (List.mem_cons_of_mem c hm))]

theorem splitNLChars_append : ∀ (l m : List Char), '\n' ∉ l →
    splitNLChars (l ++ '\n' :: m) = l :: splitNLChars m := by
  intro l
  induction l with
  | nil =>
    intro m _
    show splitNLChars ('\n' :: m) = [] :: splitNLChars m
    rw [splitNLChars, if_pos rfl]
  | cons c cs ih =>
    intro m h
    have hc : ¬c = '\n' := fun hc => h (by simp [hc])
    show splitNLChars (c :: (cs ++ '\n' :: m)) = (c :: cs) :: splitNLChars m
    rw [splitNLChars, if_neg hc, ih m (fun hm => h (List.mem_cons_of_mem c hm))]

theorem joinNL_split : ∀ (grp : List String), grp ≠ [] →
    (∀ r ∈ grp, '\n' ∉ r.data) →
    splitNLChars (joinNL grp).data = grp.map String.data := by
  intro grp
  induction grp with
  | nil => intro h; exact absurd rfl h
  | cons r rest ih =>
    intro _ hnl
    cases rest with
    | nil =>
      show splitNLChars r.data = [r.data]
      exact splitNLChars_no_newline r.data (hnl r (by simp))
    | cons b t =>
      have hjoin : joinNL (r :: b :: t) = r ++ "\n" ++ joinNL (b :: t) := rfl
      rw [hjoin]
      have hdata : (r ++ "\n" ++ joinNL (b :: t)).data =
          r.data ++ '\n' :: (joinNL (b :: t)).data := by
        show (r.data ++ ['\n']) ++ (joinNL (b :: t)).data = _
        simp
      rw [hdata, splitNLChars_append r.data _ (hnl r (by simp))]
      rw [ih (by simp) (fun x hx => hnl x (List.mem_cons_of_mem r hx))]
      rfl

theorem map_mk_map_data (l : List String) :
    (l.map String.data).map String.mk = l := by
  induction l with
  | nil => rfl
  | cons a t ih => simp only [List.map_cons, ih]

theorem stripWrap_reconstruct (p s : String) (grp : List String) :
    stripWrap p s (reconstruct p s grp) = joinNL grp := by
  have hdata : (reconstruct p s grp).data =
      (p.data ++ ['\n']) ++ ((joinNL grp).data ++ '\n' :: s.data) := by
    show (((p.data ++ ['\n']) ++ (joinNL grp).data) ++ ['\n']) ++ s.data = _
    simp
  have hdrop : (reconstruct p s grp).data.drop (p.data.length + 1) =
      (joinNL grp).data ++ '\n' :: s.data := by
    rw [hdata]
    have h1 : p.data.length + 1 = (p.data ++ ['\n']).length := by simp
    rw [h1, List.drop_left]
  have htake : ((joinNL grp).data ++ '\n' :: s.data).take
      (((joinNL grp).data ++ '\n' :: s.data).length - (s.data.length + 1)) =
      (joinNL grp).data := by
    have h2 : ((joinNL grp).data ++ '\n' :: s.data).length - (s.data.length + 1) =
        (joinNL grp).data.length := by
      rw [List.length_append, List.length_cons]
      omega
    rw [h2]
    exact List.take_left _ _
  show String.mk (((reconstruct p s grp).data.drop (p.data.length + 1)).take
      (((reconstruct p s grp).data.drop (p.data.length + 1)).length -
        (s.data.length + 1))) = joinNL grp
  rw [hdrop, htake]

/-- C3 counterexample.  A record may contain a newline — here the single
listing of the document `"<Listing>a\nb</Listing>"` does.  Its batch
reconstructs with `\n` separators, and stripping the wrapper then splitting
on `'\n'` yields two fragments instead of the original record: the claimed
round-trip fails byte-for-byte. -/
theorem C3_counterexample :
    extractListings "<Listing>a\nb</Listing>" = ["<Listing>a\nb</Listing>"] ∧
    (partitionRecords (BATCH_SIZE none).toNat
        (extractListings "<Listing>a\nb</Listing>"))[0]? =
      some ["<Listing>a\nb</Listing>"] ∧
    jsSplitNL
        (stripWrap
          (wrapperSections "<Listing>a\nb</Listing>"
            (extractListings "<Listing>a\nb</Listing>")).1
          (wrapperSections "<Listing>a\nb</Listing>"
            (extractListings "<Listing>a\nb</Listing>")).2
          (reconstruct
            (wrapperSections "<Listing>a\nb</Listing>"
              (extractListings "<Listing>a\nb</Listing>")).1
            (wrapperSections "<Listing>a\nb</Listing>"
              (extractListings "<Listing>a\nb</Listing>")).2
            ["<Listing>a\nb</Listing>"])) ≠ ["<Listing>a\nb</Listing>"] := by
  decide

/-- C3 (amended).  For every batch group whose records contain no newline
character, stripping the shared wrapper (plus the added separators) from the
reconstructed text and splitting on `'\n'` recovers exactly the batch's
records, byte-for-byte; with a newline inside a record the round-trip fails
(see the counterexample). -/
theorem C3_roundtrip_no_newline (p s : String) (B : Nat)
    (records : List String) (g : Nat) (grp : List String)
    (hg : (partitionRecords B records)[g]? = some grp)
    (hnl : ∀ r ∈ grp, '\n' ∉ r.data) :
    jsSplitNL (stripWrap p s (reconstruct p s grp)) = grp := by
  have hne : grp ≠ [] :=
    partitionAux_get?_ne_nil B grp g records.length records hg
  rw [stripWrap_reconstruct]
  unfold jsSplitNL
  rw [joinNL_split grp hne hnl, map_mk_map_data]

/-- Witness for C3's amended round-trip on a newline-free record. -/
theorem C3_roundtrip_no_newline_witness :
    ((partitionRecords 1 ["<Listing>A</Listing>"])[0]? =
        some ["<Listing>A</Listing>"] ∧
      ∀ r ∈ (["<Listing>A</Listing>"] : List String), '\n' ∉ r.data) ∧
    jsSplitNL (stripWrap "<Listings>" "</Listings>"
        (reconstruct "<Listings>" "</Listings>" ["<Listing>A</Listing>"])) =
      ["<Listing>A</Listing>"] :=
  ⟨⟨by decide, by decide⟩,
    C3_roundtrip_no_newline "<Listings>" "</Listings>" 1 ["<Listing>A</Listing>"]
      0 ["<Listing>A</Listing>"] (by decide) (by decide)⟩

/-! ## C4: the synthesized fallback wrapper -/

theorem wrapperSections_fallback (xml : String) (ms : List String)
    (hfb : findOpenListingsIdx xml.data = none ∨
      findCloseListingsIdx xml.data = none) :
    wrapperSections xml ms = fallbackWrapper xml ms := by
  cases ho : findOpenListingsIdx xml.data with
  | none => simp only [wrapperSections, ho]
  | some k =>
    cases hc : findCloseListingsIdx xml.data with
    | none => simp only [wrapperSections, ho, hc]
    | some j =>
      rcases hfb with h | h
      · rw [ho] at h; exact Option.noConfusion h
      · rw [hc] at h; exact Option.noConfusion h

theorem jsSlice_natCast {α : Type} (l : List α) (a b : Nat)
    (ha : a ≤ l.length) (hb : b ≤ l.length) :
    jsSlice l (a : Int) (b : Int) = (l.take b).drop a := by
  unfold jsSlice
  have hs : (if (a : Int) < 0 then max ((l.length : Int) + (a : Int)) 0
      else min (a : Int) (l.length : Int)).toNat = a := by
    rw [if_neg (by omega)]
    omega
  have he : (if (b : Int) < 0 then max ((l.length : Int) + (b : Int)) 0
      else min (b : Int) (l.length : Int)).toNat = b := by
    rw [if_neg (by omega)]
    omega
  rw [hs, he]

theorem jsSlice_prefix {α : Type} (l p rest : List α) (h : l = p ++ rest) :
    jsSlice l 0 (p.length : Int) = p := by
  subst h
  have h0 : ((0 : Nat) : Int) = (0 : Int) := rfl
  rw [← h0, jsSlice_natCast (p ++ rest) 0 p.length (by simp) (by simp),
    List.drop_zero, List.take_left]

theorem jsSlice_from_append {α : Type} (l a b : List α) (h : l = a ++ b) :
    jsSlice l (a.length : Int) (l.length : Int) = b := by
  subst h
  rw [jsSlice_natCast (a ++ b) a.length (a ++ b).length (by simp) (by omega),
    List.take_length, List.drop_left]

/-- C4 counterexample.  The document
`"<Listing>A</Listing>M<Listing>A</Listing>T"` has no `<Listings>` wrapper,
and its two extracted records are the same text.  The claim says the
computed suffix is `"</Listings>" ++ "T"` (the closing tag plus the text
after the last record), but the code locates the last record with
`indexOf`, which finds the *first* occurrence of its text, so the suffix
also swallows `"M<Listing>A</Listing>"`. -/
theorem C4_counterexample :
    extractListings "<Listing>A</Listing>M<Listing>A</Listing>T" =
      ["<Listing>A</Listing>", "<Listing>A</Listing>"] ∧
    ("<Listing>A</Listing>M<Listing>A</Listing>T" : String) =
      "" ++ "<Listing>A</Listing>" ++ "M" ++ "<Listing>A</Listing>" ++ "T" ∧
    findOpenListingsIdx
      ("<Listing>A</Listing>M<Listing>A</Listing>T" : String).data = none ∧
    (wrapperSections "<Listing>A</Listing>M<Listing>A</Listing>T"
        (extractListings "<Listing>A</Listing>M<Listing>A</Listing>T")).2 ≠
      "</Listings>" ++ "T" ∧
    (wrapperSections "<Listing>A</Listing>M<Listing>A</Listing>T"
        (extractListings "<Listing>A</Listing>M<Listing>A</Listing>T")).2 =
      "</Listings>" ++ "M<Listing>A</Listing>T" := by
  decide

/-- C4 (amended).  When a wrapper tag is missing, the synthesized wrapper is
as the claim states it *provided* `indexOf` lands on the records themselves:
if the first occurrence of the first record's text starts exactly where the
first record starts, and the first occurrence of the last record's text ends
exactly where the last record ends (automatic when no record text repeats
earlier in the document), then the prefix is the text before the first
record plus `"<Listings>"` and the suffix is `"</Listings>"` plus the text
after the last record.  With a duplicated last record the code's
`indexOf`-based suffix differs (see the counterexample). -/
theorem C4_fallback_wrapper_synthesis (doc : String) (ms : List String)
    (m0 mL pre0 rest0 preL post : String)
    (hfb : findOpenListingsIdx doc.data = none ∨
      findCloseListingsIdx doc.data = none)
    (h0 : ms.head? = some m0)
    (hL : ms.getLast? = some mL)
    (hdoc0 : doc.data = pre0.data ++ (m0.data ++ rest0.data))
    (hfirst : subIdx m0.data doc.data = some pre0.data.length)
    (hdocL : doc.data = (preL.data ++ mL.data) ++ post.data)
    (hlast : subIdx mL.data doc.data = some preL.data.length) :
    wrapperSections doc ms = (pre0 ++ "<Listings>", "</Listings>" ++ post) := by
  rw [wrapperSections_fallback doc ms hfb]
  have hh : ms.headD "" = m0 := by
    cases ms with
    | nil => cases h0
    | cons a t => exact Option.some_inj.mp h0
  have hl : (ms.getLast?).getD "" = mL := by rw [hL]; rfl
  simp only [fallbackWrapper]
  rw [hh, hl, hfirst, hlast]
  have h1 : jsSlice doc.data 0 (pre0.data.length : Int) = pre0.data :=
    jsSlice_prefix doc.data pre0.data (m0.data ++ rest0.data) hdoc0
  have hlen : ((preL.data ++ mL.data).length : Int) =
      (preL.data.length : Int) + (mL.data.length : Int) := by
    rw [List.length_append]; push_cast; ring
  have h2 : jsSlice doc.data ((preL.data.length : Int) + (mL.data.length : Int))
      (doc.data.length : Int) = post.data := by
    rw [← hlen]
    exact jsSlice_from_append doc.data (preL.data ++ mL.data) post.data hdocL
  simp only [h1, h2]

/-- Witness for C4's amended wrapper synthesis on
`"X<Listing>A</Listing>Y"` (a unique record text). -/
theorem C4_fallback_wrapper_synthesis_witness :
    (findOpenListingsIdx ("X<Listing>A</Listing>Y" : String).data = none ∧
      subIdx ("<Listing>A</Listing>" : String).data
        ("X<Listing>A</Listing>Y" : String).data = some ("X" : String).data.length) ∧
    wrapperSections "X<Listing>A</Listing>Y" ["<Listing>A</Listing>"] =
      ("X" ++ "<Listings>", "</Listings>" ++ "Y") :=
  ⟨⟨by decide, by decide⟩,
    C4_fallback_wrapper_synthesis "X<Listing>A</Listing>Y" ["<Listing>A</Listing>"]
      "<Listing>A</Listing>" "<Listing>A</Listing>" "X" "Y" "X" "Y"
      (Or.inl (by decide)) (by decide) (by decide) (by decide) (by decide)
      (by decide) (by decide)⟩

end PXml
